import Mathlib

/-!
Verification of the UniExplorer map-annotation client.

Shallow embedding of the client logic found in
`src/uniexplorer/src/App.tsx` and `src/unnamed/part_002`:
the Firestore equality query, the snapshot full-replace handler of the
live subscription, the effect lifecycle (cleanup on dependency change),
the map-click / submit handlers, the leaderboard aggregation, and the
tile-error binding.  Firestore documents are association records with
optional fields; document timestamps, the real map widget and all pure
styling are outside the scope of the claims and are not modelled.
-/

namespace UniExplorer

/-- Relevant part of a Firebase auth user: `displayName`, `email` and `uid`
are the only fields the client logic reads. -/
structure UserInfo where
  displayName : Option String
  email : Option String
  uid : String
deriving DecidableEq, Repr

/-- The data of one document of the `annotations` collection.  Every field a
loosely-typed Firestore document may omit is an `Option`.  The server
timestamp `createdAt` is never read by the client and is not modelled. -/
structure DocData where
  lat : Int
  lng : Int
  text : Option String
  author : Option String
  celestialBody : Option String
  userId : Option String
deriving DecidableEq, Repr

/-- A document of a query snapshot: an id and its data.  `doc.data()` is
modelled as an `Option` because the handlers guard with `if (!data) return`. -/
structure FsDoc where
  id : String
  data : Option DocData
deriving DecidableEq, Repr

/-- The in-memory record the snapshot handler builds for each document
(`interface Annotation` in the source), after defaulting missing fields. -/
structure AnnotationRecord where
  id : String
  lat : Int
  lng : Int
  text : String
  author : String
  celestialBody : String
deriving DecidableEq, Repr

/-- The fields of a document written through `addDoc` by the click / submit
handlers (the server-assigned `createdAt` timestamp is not modelled). -/
structure AnnotationWrite where
  lat : Int
  lng : Int
  text : String
  details : Option String
  author : String
  celestialBody : String
  userId : Option String
deriving DecidableEq, Repr

/-- Observable outcome of one map click: the store writes it performs, the
toasts it shows, and whether it opened the creation modal. -/
structure ClickOutcome where
  writes : List AnnotationWrite
  toasts : List String
  modalOpened : Bool
deriving DecidableEq, Repr

/-- Session author name `user?.displayName ?? user?.email ?? 'Unknown'`,
used by the query filter and the rank computations. -/
def currentUserName : Option UserInfo → String
  | none => "Unknown"
  | some u => u.displayName.getD (u.email.getD "Unknown")

/-- Firestore `where(field, '==', v)`: the document matches when its data is
present and the field is present and equal to `v`. -/
def whereEq (f : DocData → Option String) (v : String) (d : FsDoc) : Bool :=
  match d.data with
  | none => false
  | some data => f data == some v

/-- The live query of the subscription (`src/unnamed/part_002` lines 163-172;
`App.tsx` line 239 is the unconditional branch): filter by
`celestialBody == activeBody.name`, and additionally by
`author == (user.displayName ?? user.email ?? 'Unknown')` when the
"show only my annotations" toggle is on and a user is signed in.  The query
result over a given collection `store` keeps collection order. -/
def annotationsQuery (body : String) (showOnlyMyAnnotations : Bool)
    (user : Option UserInfo) (store : List FsDoc) : List FsDoc :=
  if showOnlyMyAnnotations && user.isSome then
    store.filter (fun d =>
      whereEq (fun data => data.celestialBody) body d
        && whereEq (fun data => data.author) (currentUserName user) d)
  else
    store.filter (fun d => whereEq (fun data => data.celestialBody) body d)

/-- Build the record for one snapshot document, defaulting missing fields:
`text ?? 'Unnamed discovery'`, `author ?? 'Explorer'`,
`celestialBody ?? activeBody.name`. -/
def mkAnnotationRecord (body : String) (docId : String) (data : DocData) :
    AnnotationRecord :=
  { id := docId
    lat := data.lat
    lng := data.lng
    text := data.text.getD "Unnamed discovery"
    author := data.author.getD "Explorer"
    celestialBody := data.celestialBody.getD body }

/-- One iteration of the `snapshot.forEach` body in `src/unnamed/part_002`
lines 178-221: skip documents without data, otherwise create a marker and
push it. -/
def pushMarker (body : String) (ms : List AnnotationRecord) (d : FsDoc) :
    List AnnotationRecord :=
  match d.data with
  | none => ms
  | some data => ms ++ [mkAnnotationRecord body d.id data]

/-- One iteration of the `snapshot.forEach` body in `App.tsx` lines 245-269:
as `pushMarker`, but additionally skipping any record whose (defaulted)
`celestialBody` differs from the active body. -/
def pushMarkerChecked (body : String) (ms : List AnnotationRecord) (d : FsDoc) :
    List AnnotationRecord :=
  match d.data with
  | none => ms
  | some data =>
    if (mkAnnotationRecord body d.id data).celestialBody == body then
      ms ++ [mkAnnotationRecord body d.id data]
    else ms

/-- The `onSnapshot` handler of `src/unnamed/part_002` lines 174-222: remove
every marker currently on the map (`markers.forEach(m => m.remove());
markers.length = 0` — the previous marker list is discarded wholesale), then
push one marker per snapshot document. -/
def onSnapshotReplace (body : String) (_markers : List AnnotationRecord)
    (snap : List FsDoc) : List AnnotationRecord :=
  snap.foldl (pushMarker body) []

/-- The `onSnapshot` handler of `App.tsx` lines 241-270: same full replace,
with the extra body re-check on each record. -/
def onSnapshotReplaceChecked (body : String) (_markers : List AnnotationRecord)
    (snap : List FsDoc) : List AnnotationRecord :=
  snap.foldl (pushMarkerChecked body) []

/-- The dependency key of the subscription effect: active body name, the
"mine only" toggle, and the session (effect deps `[activeBody,
showOnlyMyAnnotations, user]` in `src/unnamed/part_002` line 245). -/
structure SubKey where
  body : String
  mineOnly : Bool
  user : Option UserInfo
deriving DecidableEq, Repr

/-- The client-visible state of the sync loop: the markers currently on the
map and the installed subscription, if any. -/
structure SyncState where
  markers : List AnnotationRecord
  sub : Option SubKey
deriving DecidableEq, Repr

/-- Effect cleanup (`src/unnamed/part_002` lines 239-244, `App.tsx` lines
272-276): `unsubscribeAnnotations()` then remove every marker. -/
def effectCleanup (_st : SyncState) : SyncState :=
  { markers := [], sub := none }

/-- Effect body: install the subscription for the new dependency key (markers
are only touched later, by snapshot deliveries). -/
def effectSetup (k : SubKey) (st : SyncState) : SyncState :=
  { st with sub := some k }

/-- A dependency change as React runs it: the old effect's cleanup completes
before the new effect body runs. -/
def dependencyChange (k : SubKey) (st : SyncState) : SyncState :=
  effectSetup k (effectCleanup st)

/-- Delivery of one snapshot notification: if a subscription is installed,
its query is evaluated over the collection contents `store` and the handler
performs the full replace; without a subscription nothing is delivered. -/
def deliver (store : List FsDoc) (st : SyncState) : SyncState :=
  match st.sub with
  | none => st
  | some k =>
    { st with
      markers := onSnapshotReplace k.body st.markers
        (annotationsQuery k.body k.mineOnly k.user store) }

/-- Run a sequence of snapshot deliveries (each with the collection contents
at that moment). -/
def runDeliveries (st : SyncState) (stores : List (List FsDoc)) : SyncState :=
  stores.foldl (fun s store => deliver store s) st

/-- The whitespace class of JavaScript `String.prototype.trim` restricted to
the ASCII range: space, tab, line feed, vertical tab, form feed, carriage
return. -/
def isJsWhitespace (c : Char) : Bool :=
  c == ' ' || c == '\t' || c == '\n' || c == '\r'
    || c == Char.ofNat 11 || c == Char.ofNat 12

/-- JavaScript `s.trim()`: strip leading and trailing whitespace. -/
def jsTrim (s : String) : String :=
  String.mk (((s.data.dropWhile isJsWhitespace).reverse.dropWhile
    isJsWhitespace).reverse)

/-- The map-click handler of `App.tsx` lines 148-176: without a session, one
toast and nothing else; with a session, `window.prompt(...)?.trim()` — a
cancelled prompt (`none`) or an all-whitespace answer aborts with no write,
otherwise one document is written (`author` is `displayName ?? 'Anonymous'`,
`userId` the session uid) and the success toast is shown. -/
def mapClick (session : Option UserInfo) (body : String) (lat lng : Int)
    (promptResult : Option String) : ClickOutcome :=
  match session with
  | none =>
    { writes := [], toasts := ["Please sign in to add a discovery tag."],
      modalOpened := false }
  | some u =>
    match promptResult.map jsTrim with
    | none => { writes := [], toasts := [], modalOpened := false }
    | some description =>
      if description == "" then
        { writes := [], toasts := [], modalOpened := false }
      else
        { writes :=
            [{ lat := lat, lng := lng, text := description, details := none,
               author := u.displayName.getD "Anonymous",
               celestialBody := body, userId := some u.uid }],
          toasts := ["Discovery tag added!"], modalOpened := false }

/-- The map-click handler of `src/unnamed/part_002` lines 225-233: without a
session, one toast and nothing else; with a session it only opens the
annotation-creation modal (no write happens on the click itself). -/
def mapClickModal (session : Option UserInfo) : ClickOutcome :=
  match session with
  | none =>
    { writes := [], toasts := ["Please sign in to add markers"],
      modalOpened := false }
  | some _ => { writes := [], toasts := [], modalOpened := true }

/-- Function `handleSubmitAnnotation` of `src/unnamed/part_002` lines 267-293, as the
list of store writes it performs: abort when no click position is pending
(the modal was cancelled) or when the trimmed title is empty; otherwise
write one document with the trimmed title as `text`, the trimmed details
(or nothing, `annotationDetails.trim() || undefined`), the session's
`displayName ?? 'Anonymous'` as author, and the session uid. -/
def handleSubmitAnnotationModal (session : Option UserInfo)
    (newAnnotationPos : Option (Int × Int))
    (annotationTitle annotationDetails : String) (body : String) :
    List AnnotationWrite :=
  match newAnnotationPos with
  | none => []
  | some pos =>
    if jsTrim annotationTitle == "" then []
    else
      [{ lat := pos.1, lng := pos.2, text := jsTrim annotationTitle,
         details :=
           if jsTrim annotationDetails == "" then none
           else some (jsTrim annotationDetails),
         author := (session.bind (fun u => u.displayName)).getD "Anonymous",
         celestialBody := body,
         userId := session.map (fun u => u.uid) }]

/-- One leaderboard line: an author name and that author's document count. -/
structure LbEntry where
  author : String
  count : Nat
deriving DecidableEq, Repr

/-- Effective author `doc.data().author ?? 'Anonymous'` — the key a document is counted
under by `loadStats` and `loadLeaderboard`. -/
def effAuthor (d : DocData) : String :=
  d.author.getD "Anonymous"

/-- Step `counts[author] = (counts[author] || 0) + 1` on a JavaScript object whose
string keys enumerate in insertion order: increment the entry if the key is
present, otherwise append a fresh entry at the end. -/
def bumpCount (l : List LbEntry) (a : String) : List LbEntry :=
  match l with
  | [] => [{ author := a, count := 1 }]
  | e :: es =>
    if e.author == a then { author := e.author, count := e.count + 1 } :: es
    else e :: bumpCount es a

/-- The per-author counts of the whole collection, keys in first-occurrence
order (`snapshot.forEach` over the collection in order). -/
def countsOf (docs : List DocData) : List LbEntry :=
  docs.foldl (fun l d => bumpCount l (effAuthor d)) []

/-- Lookup `counts[a] || 0`: an author's count in the counts list. -/
def lookupCount (l : List LbEntry) (a : String) : Nat :=
  match l.find? (fun e => e.author == a) with
  | some e => e.count
  | none => 0

/-- Stable insertion step for the descending-by-count sort: the new entry is
placed before the first strictly smaller count, i.e. after every entry with
a greater-or-equal count that is already in place. -/
def insertDesc (x : LbEntry) : List LbEntry → List LbEntry
  | [] => [x]
  | y :: ys => if y.count < x.count then x :: y :: ys else y :: insertDesc x ys

/-- Sort `entries.sort((a, b) => b.count - a.count)`: JavaScript `Array.prototype.sort`
is stable, so the result is the unique stable descending-by-count ordering,
computed here by stable insertion in enumeration order. -/
def sortByCountDesc (l : List LbEntry) : List LbEntry :=
  l.foldl (fun acc x => insertDesc x acc) []

/-- JavaScript `l.findIndex(p) + 1`, directly as a natural number:
`0` when no element matches, otherwise the 1-based position of the first
match. -/
def findIndexPlusOne (p : α → Bool) : List α → Nat
  | [] => 0
  | x :: xs =>
    if p x then 1
    else
      match findIndexPlusOne p xs with
      | 0 => 0
      | n + 1 => n + 2

/-- Rank `sort(desc).findIndex(e => e.author === name) + 1` that the stats
and leaderboard computations derive for an author name. -/
def rankOf (counts : List LbEntry) (name : String) : Nat :=
  findIndexPlusOne (fun e => e.author == name) (sortByCountDesc counts)

/-- The stats triple both aggregation paths produce. -/
structure StatsResult where
  totalDiscoveries : Nat
  totalExplorers : Nat
  yourRank : Nat
deriving DecidableEq, Repr

/-- Function `loadStats` of `src/unnamed/part_002` lines 89-110: full-collection scan,
per-author counts, `snapshot.size`, distinct-author count, and
`user ? sorted.findIndex(author === currentUserName) + 1 : 0`. -/
def loadStats (docs : List DocData) (user : Option UserInfo) : StatsResult :=
  { totalDiscoveries := docs.length
    totalExplorers := (countsOf docs).length
    yourRank :=
      if user.isSome then rankOf (countsOf docs) (currentUserName user)
      else 0 }

/-- The result of `loadLeaderboard`: the displayed top list plus the stats it
stores. -/
structure LeaderboardResult where
  top : List LbEntry
  totalDiscoveries : Nat
  totalExplorers : Nat
  yourRank : Nat
deriving DecidableEq, Repr

/-- Function `loadLeaderboard` of `src/unnamed/part_002` lines 321-352: full-collection
scan, per-author counts, descending sort, `slice(0, 10)`, `snapshot.size`,
distinct-author count, and — without any signed-in guard —
`sorted.findIndex(author === currentUserName) + 1`. -/
def loadLeaderboard (docs : List DocData) (user : Option UserInfo) :
    LeaderboardResult :=
  { top := (sortByCountDesc (countsOf docs)).take 10
    totalDiscoveries := docs.length
    totalExplorers := (countsOf docs).length
    yourRank := rankOf (countsOf docs) (currentUserName user) }

/-- Observable state of one tile-layer activation: the dedup flag
`tileErrorShown`, the number of `console.error` calls and the number of
toasts shown. -/
structure TileState where
  tileErrorShown : Bool
  logCount : Nat
  toastCount : Nat
deriving DecidableEq, Repr

/-- State at the start of an activation (`let tileErrorShown = false`). -/
def tileInit : TileState :=
  { tileErrorShown := false, logCount := 0, toastCount := 0 }

/-- The `tileerror` handler of `App.tsx` lines 567-576: `console.error` on
every event; the toast only while `tileErrorShown` is still false, which the
first event sets. -/
def onTileError (st : TileState) : TileState :=
  if st.tileErrorShown then
    { st with logCount := st.logCount + 1 }
  else
    { tileErrorShown := true, logCount := st.logCount + 1,
      toastCount := st.toastCount + 1 }

/-- The `tileerror` handler of `App.tsx` lines 214-216 (and
`src/unnamed/part_002` lines 1772-1774): `console.error` only, no toast
ever. -/
def onTileErrorLogOnly (st : TileState) : TileState :=
  { st with logCount := st.logCount + 1 }

/-- Run `n` tile-error events within one activation, dedup-toast variant. -/
def runTileErrors : Nat → TileState
  | 0 => tileInit
  | n + 1 => onTileError (runTileErrors n)

/-- Run `n` tile-error events within one activation, log-only variant. -/
def runTileErrorsLogOnly : Nat → TileState
  | 0 => tileInit
  | n + 1 => onTileErrorLogOnly (runTileErrorsLogOnly n)

/-- Modelled from the spec: the delivery contract of the live subscription in
its amended form — every document whose `celestialBody` field equals the
active body's name, and, when the "mine only" filter is on and a session
exists, whose `author` field additionally equals the session author name
`displayName ?? email ?? 'Unknown'`.  (The spec's words "the current user's
authored documents" are realised by the code only through this author-name
equality, not through the stored `userId`.) -/
def deliveredSpec (body : String) (mineOnly : Bool) (user : Option UserInfo)
    (store : List FsDoc) : List FsDoc :=
  store.filter (fun d =>
    whereEq (fun data => data.celestialBody) body d
      && (if mineOnly && user.isSome then
            whereEq (fun data => data.author) (currentUserName user) d
          else true))

/-- A sample annotation document datum for concrete scenarios. -/
def mkData (author : Option String) (body : String) (uid : Option String) :
    DocData :=
  { lat := 0, lng := 0, text := some "note", author := author,
    celestialBody := some body, userId := uid }

/-- The collection of the spec's leaderboard scenario: three Mars documents
by "A", "A", "B" and two Moon documents by "C". -/
def c4docs : List DocData :=
  [mkData (some "A") "Mars" none, mkData (some "A") "Mars" none,
   mkData (some "B") "Mars" none, mkData (some "C") "Moon" none,
   mkData (some "C") "Moon" none]

/-- The scenario collection as snapshot documents. -/
def c4store : List FsDoc :=
  c4docs.map (fun d => { id := "", data := some d })

/-- A collection whose single document is authored by the literal name
"Unknown" — the name a signed-out viewer's rank is computed for. -/
def c5docs : List DocData := [mkData (some "Unknown") "Mars" none]

/-- A session whose user has no display name: the write path then stores
author "Anonymous", while the "mine only" filter searches for the email. -/
def c3user : UserInfo :=
  { displayName := none, email := some "eve@example.com", uid := "uid-0" }

/-- The document `c3user`'s own click produces (author "Anonymous", `userId`
equal to the session uid), as it appears in the store on Mars. -/
def c3doc : FsDoc :=
  { id := "d0",
    data :=
      some { lat := 3, lng := 4, text := some "crater rim",
             author := some "Anonymous", celestialBody := some "Mars",
             userId := some "uid-0" } }

/-- A signed-in user displaying the name "A", for witnesses. -/
def userA : UserInfo := { displayName := some "A", email := none, uid := "uA" }

/-- A one-document collection authored by "A", for witnesses. -/
def docsA : List DocData := [mkData (some "A") "Mars" none]

/-- Witness collection for the merged-"Anonymous" claim: two author-less
documents written by different users plus one named author. -/
def c10docs : List DocData :=
  [mkData none "Mars" (some "u1"), mkData none "Mars" (some "u2"),
   mkData (some "B") "Moon" (some "u3")]

lemma whereEq_eq_true_iff (f : DocData → Option String) (v : String)
    (d : FsDoc) :
    whereEq f v d = true ↔ ∃ data, d.data = some data ∧ f data = some v := by
  cases hdata : d.data with
  | none => simp [whereEq, hdata]
  | some data => simp [whereEq, hdata]

lemma query_whereBody (body : String) (mo : Bool) (u : Option UserInfo)
    (store : List FsDoc) :
    ∀ d ∈ annotationsQuery body mo u store,
      whereEq (fun data => data.celestialBody) body d = true := by
  intro d hd
  unfold annotationsQuery at hd
  split at hd
  · have h2 := (List.mem_filter.mp hd).2
    simp only [Bool.and_eq_true] at h2
    exact h2.1
  · exact (List.mem_filter.mp hd).2

lemma foldl_pushMarker_length (body : String) :
    ∀ (snap : List FsDoc) (acc : List AnnotationRecord),
      (∀ d ∈ snap, whereEq (fun data => data.celestialBody) body d = true) →
      (snap.foldl (pushMarker body) acc).length = acc.length + snap.length := by
  intro snap
  induction snap with
  | nil => intro acc _; simp
  | cons d snap ih =>
    intro acc h
    obtain ⟨data, hdata, _⟩ :=
      (whereEq_eq_true_iff _ _ _).mp (h d (List.mem_cons_self d snap))
    have hstep : pushMarker body acc d
        = acc ++ [mkAnnotationRecord body d.id data] := by
      simp [pushMarker, hdata]
    rw [List.foldl_cons, hstep,
      ih _ (fun x hx => h x (List.mem_cons_of_mem d hx))]
    simp
    omega

lemma foldl_pushMarkerChecked_length (body : String) :
    ∀ (snap : List FsDoc) (acc : List AnnotationRecord),
      (∀ d ∈ snap, whereEq (fun data => data.celestialBody) body d = true) →
      (snap.foldl (pushMarkerChecked body) acc).length
        = acc.length + snap.length := by
  intro snap
  induction snap with
  | nil => intro acc _; simp
  | cons d snap ih =>
    intro acc h
    obtain ⟨data, hdata, hbody⟩ :=
      (whereEq_eq_true_iff _ _ _).mp (h d (List.mem_cons_self d snap))
    have hrec : (mkAnnotationRecord body d.id data).celestialBody = body := by
      simp [mkAnnotationRecord, hbody]
    have hstep : pushMarkerChecked body acc d
        = acc ++ [mkAnnotationRecord body d.id data] := by
      simp [pushMarkerChecked, hdata, hrec]
    rw [List.foldl_cons, hstep,
      ih _ (fun x hx => h x (List.mem_cons_of_mem d hx))]
    simp
    omega

lemma foldl_pushMarker_all_body (body : String) :
    ∀ (snap : List FsDoc) (acc : List AnnotationRecord),
      (∀ d ∈ snap, whereEq (fun data => data.celestialBody) body d = true) →
      acc.all (fun a => a.celestialBody == body) = true →
      ((snap.foldl (pushMarker body) acc).all
        (fun a => a.celestialBody == body)) = true := by
  intro snap
  induction snap with
  | nil => intro acc _ hacc; simpa using hacc
  | cons d snap ih =>
    intro acc h hacc
    obtain ⟨data, hdata, hbody⟩ :=
      (whereEq_eq_true_iff _ _ _).mp (h d (List.mem_cons_self d snap))
    have hstep : pushMarker body acc d
        = acc ++ [mkAnnotationRecord body d.id data] := by
      simp [pushMarker, hdata]
    rw [List.foldl_cons, hstep]
    refine ih _ (fun x hx => h x (List.mem_cons_of_mem d hx)) ?_
    have hrec : (mkAnnotationRecord body d.id data).celestialBody = body := by
      simp [mkAnnotationRecord, hbody]
    simp only [List.all_append, List.all_cons, List.all_nil, Bool.and_true]
    rw [hacc, hrec]
    simp

/-- Claim C1: for every snapshot notification delivered for a fixed
(body, filter) pair — i.e. a result set of the subscription's query over any
collection contents — the handler rebuilds the marker set from scratch
(the previous marker list is irrelevant) and displays exactly one marker per
document of the notification, in both handler variants. -/
theorem c1_snapshot_full_replace (body : String) (mineOnly : Bool)
    (user : Option UserInfo) (store : List FsDoc)
    (prev : List AnnotationRecord) :
    onSnapshotReplace body prev (annotationsQuery body mineOnly user store)
      = onSnapshotReplace body [] (annotationsQuery body mineOnly user store)
    ∧ (onSnapshotReplace body prev
        (annotationsQuery body mineOnly user store)).length
      = (annotationsQuery body mineOnly user store).length
    ∧ (onSnapshotReplaceChecked body prev
        (annotationsQuery body mineOnly user store)).length
      = (annotationsQuery body mineOnly user store).length := by
  refine ⟨rfl, ?_, ?_⟩
  · simpa [onSnapshotReplace] using
      foldl_pushMarker_length body (annotationsQuery body mineOnly user store)
        [] (query_whereBody body mineOnly user store)
  · simpa [onSnapshotReplaceChecked] using
      foldl_pushMarkerChecked_length body
        (annotationsQuery body mineOnly user store) []
        (query_whereBody body mineOnly user store)

lemma deliver_inv (k : SubKey) (st : SyncState) (store : List FsDoc)
    (hsub : st.sub = some k) :
    (deliver store st).sub = some k
    ∧ ((deliver store st).markers.all
        (fun a => a.celestialBody == k.body)) = true := by
  unfold deliver
  rw [hsub]
  refine ⟨rfl, ?_⟩
  simpa [onSnapshotReplace] using
    foldl_pushMarker_all_body k.body
      (annotationsQuery k.body k.mineOnly k.user store) []
      (query_whereBody k.body k.mineOnly k.user store) rfl

lemma runDeliveries_inv (k : SubKey) :
    ∀ (stores : List (List FsDoc)) (st : SyncState), st.sub = some k →
      st.markers.all (fun a => a.celestialBody == k.body) = true →
      (runDeliveries st stores).sub = some k
      ∧ ((runDeliveries st stores).markers.all
          (fun a => a.celestialBody == k.body)) = true := by
  intro stores
  induction stores with
  | nil => intro st h1 h2; exact ⟨h1, h2⟩
  | cons store stores ih =>
    intro st h1 _
    have hd := deliver_inv k st store h1
    exact ih _ hd.1 hd.2

/-- Claim C2: a dependency change (new active body or filter) tears the old
subscription down and leaves the map with no markers at all — no marker
survives —, and after any sequence of subsequent snapshot deliveries every
displayed marker belongs to the new body, so markers of the previous body
are never displayed together with markers of the new one. -/
theorem c2_no_marker_survives_dependency_change (st : SyncState) (k : SubKey)
    (stores : List (List FsDoc)) :
    (dependencyChange k st).markers = []
    ∧ ((runDeliveries (dependencyChange k st) stores).markers.all
        (fun a => a.celestialBody == k.body)) = true := by
  refine ⟨rfl, ?_⟩
  exact (runDeliveries_inv k stores (dependencyChange k st) rfl rfl).2

/-- Claim C6: a map click with no active session writes nothing, shows
exactly one toast and opens nothing, in both click-handler variants. -/
theorem c6_signed_out_click_no_write (body : String) (lat lng : Int)
    (promptResult : Option String) :
    (mapClick none body lat lng promptResult).writes = []
    ∧ (mapClick none body lat lng promptResult).toasts.length = 1
    ∧ (mapClick none body lat lng promptResult).modalOpened = false
    ∧ (mapClickModal none).writes = []
    ∧ (mapClickModal none).toasts.length = 1
    ∧ (mapClickModal none).modalOpened = false :=
  ⟨rfl, rfl, rfl, rfl, rfl, rfl⟩

lemma runTileErrors_closed (n : Nat) :
    runTileErrors n
      = { tileErrorShown := decide (0 < n), logCount := n,
          toastCount := min n 1 } := by
  induction n with
  | zero => rfl
  | succ m ih =>
    have : runTileErrors (m + 1) = onTileError (runTileErrors m) := rfl
    rw [this, ih]
    cases m with
    | zero => rfl
    | succ p => simp [onTileError]

lemma runTileErrorsLogOnly_closed (n : Nat) :
    runTileErrorsLogOnly n
      = { tileErrorShown := false, logCount := n, toastCount := 0 } := by
  induction n with
  | zero => rfl
  | succ m ih =>
    have : runTileErrorsLogOnly (m + 1)
        = onTileErrorLogOnly (runTileErrorsLogOnly m) := rfl
    rw [this, ih]
    simp [onTileErrorLogOnly]

/-- Claim C8 counterexample: two tile errors within one activation produce
two log entries — logging is not deduplicated, only the toast is — and the
log-only handler variant never surfaces a notice at all. -/
theorem c8_counterexample_log_not_deduplicated :
    (runTileErrors 2).logCount = 2
    ∧ (runTileErrors 2).toastCount = 1
    ∧ (runTileErrorsLogOnly 1).logCount = 1
    ∧ (runTileErrorsLogOnly 1).toastCount = 0 :=
  ⟨rfl, rfl, rfl, rfl⟩

/-- Claim C8 (amended): per activation, every tile-load failure is logged
(`n` errors give `n` log entries); in the deduplicating variant a transient
notice is surfaced exactly once as soon as an error occurs (`min n 1`
toasts); the log-only variant never shows a notice; with no error the
binding stays silent. -/
theorem c8_amended_tile_error_handling (n : Nat) :
    (runTileErrors n).logCount = n
    ∧ (runTileErrors n).toastCount = min n 1
    ∧ (runTileErrorsLogOnly n).logCount = n
    ∧ (runTileErrorsLogOnly n).toastCount = 0
    ∧ runTileErrors 0 = tileInit := by
  rw [runTileErrors_closed, runTileErrorsLogOnly_closed]
  exact ⟨rfl, rfl, rfl, rfl, rfl⟩

/-- Claim C3 counterexample: the "mine only" filter matches the `author`
field against `displayName ?? email ?? 'Unknown'`, while the write path
stores `displayName ?? 'Anonymous'`.  For `c3user` (no display name) the
user's own click produces a Mars document with author "Anonymous" and the
session's own `userId`, yet the mine-only subscription for that very user
delivers nothing — so the subscription does not deliver exactly the
documents authored by the current user with matching body. -/
theorem c3_counterexample_own_document_not_delivered :
    (mapClick (some c3user) "Mars" 3 4 (some "crater rim")).writes
      = [{ lat := 3, lng := 4, text := "crater rim", details := none,
           author := "Anonymous", celestialBody := "Mars",
           userId := some "uid-0" }]
    ∧ c3doc.data.map (fun data => data.userId) = some (some c3user.uid)
    ∧ whereEq (fun data => data.celestialBody) "Mars" c3doc = true
    ∧ annotationsQuery "Mars" true (some c3user) [c3doc] = [] := by
  refine ⟨by decide, by decide, by decide, by decide⟩

/-- Claim C3 (amended): what the live subscription delivers, exactly.  With
the "mine only" filter on and a session present it is the documents whose
`celestialBody` field equals the active body's name and whose `author` field
equals the session author name `displayName ?? email ?? 'Unknown'` — an
author-name proxy for "authored by the current user", not a `userId` check;
with the filter off (or signed out) it is all documents whose
`celestialBody` field equals the active body's name. -/
theorem c3_amended_delivery_characterisation (body : String) (mineOnly : Bool)
    (user : Option UserInfo) (store : List FsDoc) :
    annotationsQuery body mineOnly user store
      = deliveredSpec body mineOnly user store := by
  cases hmo : mineOnly && user.isSome with
  | true => simp [annotationsQuery, deliveredSpec, hmo]
  | false => simp [annotationsQuery, deliveredSpec, hmo]

lemma dropWhile_eq_nil_of_all {α : Type} {p : α → Bool} :
    ∀ l : List α, (∀ c ∈ l, p c = true) → l.dropWhile p = [] := by
  intro l
  induction l with
  | nil => intro _; rfl
  | cons c cs ih =>
    intro h
    rw [List.dropWhile_cons, if_pos (h c (List.mem_cons_self c cs))]
    exact ih (fun x hx => h x (List.mem_cons_of_mem c hx))

lemma jsTrim_eq_empty_of_all_ws (s : String)
    (h : s.data.all isJsWhitespace = true) : jsTrim s = "" := by
  have h1 : s.data.dropWhile isJsWhitespace = [] :=
    dropWhile_eq_nil_of_all _ (fun c hc => List.all_eq_true.mp h c hc)
  simp [jsTrim, h1]

lemma mapClick_writes_eq (u : UserInfo) (body : String) (lat lng : Int)
    (s : String) :
    (mapClick (some u) body lat lng (some s)).writes
      = if jsTrim s == "" then []
        else [{ lat := lat, lng := lng, text := jsTrim s, details := none,
                author := u.displayName.getD "Anonymous",
                celestialBody := body, userId := some u.uid }] := by
  cases hc : jsTrim s == "" with
  | true => simp [mapClick, hc]
  | false => simp [mapClick, hc]

/-- Claim C7: an annotation submission with a cancelled input dialog or an
empty (after trimming) description aborts without any store write, in both
variants (the prompt-based click handler and the modal submit handler; for
the latter a cancelled dialog means no pending click position). -/
theorem c7_empty_or_cancelled_never_writes (u : UserInfo) (body : String)
    (lat lng : Int) :
    (mapClick (some u) body lat lng none).writes = []
    ∧ (∀ s : String, jsTrim s = "" →
        (mapClick (some u) body lat lng (some s)).writes = [])
    ∧ (∀ (sess : Option UserInfo) (t det b : String),
        handleSubmitAnnotationModal sess none t det b = [])
    ∧ (∀ (sess : Option UserInfo) (pos : Option (Int × Int)) (t det b : String),
        jsTrim t = "" → handleSubmitAnnotationModal sess pos t det b = []) := by
  refine ⟨rfl, ?_, ?_, ?_⟩
  · intro s hs
    rw [mapClick_writes_eq, if_pos (by simp [hs])]
  · intro sess t det b; rfl
  · intro sess pos t det b ht
    cases pos with
    | none => rfl
    | some p => simp [handleSubmitAnnotationModal, ht]

/-- Claim C7 witness: an all-whitespace title trims to empty and neither the
prompt-based click handler nor the modal submit handler writes anything. -/
theorem c7_empty_or_cancelled_never_writes_witness :
    jsTrim "   " = ""
    ∧ (mapClick (some userA) "Mars" 0 0 (some "   ")).writes = []
    ∧ handleSubmitAnnotationModal (some userA) (some (1, 2)) "   " "d" "Mars"
        = [] :=
  ⟨by decide,
   (c7_empty_or_cancelled_never_writes userA "Mars" 0 0).2.1 "   " (by decide),
   (c7_empty_or_cancelled_never_writes userA "Mars" 0 0).2.2.2
     (some userA) (some (1, 2)) "   " "d" "Mars" (by decide)⟩

lemma handleSubmit_writes_eq (sess : Option UserInfo) (p : Int × Int)
    (t det b : String) :
    handleSubmitAnnotationModal sess (some p) t det b
      = if jsTrim t == "" then []
        else [{ lat := p.1, lng := p.2, text := jsTrim t,
                details :=
                  if jsTrim det == "" then none else some (jsTrim det),
                author := (sess.bind (fun u => u.displayName)).getD "Anonymous",
                celestialBody := b, userId := sess.map (fun u => u.uid) }] := by
  rfl

/-- Claim C9: the interaction handlers trim the description before
validation and storage — whitespace-only input is treated as empty and
aborts without a write, and every document either handler writes has its
`text` field equal to the trimmed, non-empty description. -/
theorem c9_description_trimmed_before_storage (u : UserInfo) (body : String)
    (lat lng : Int) (s : String) :
    (s.data.all isJsWhitespace = true →
      (mapClick (some u) body lat lng (some s)).writes = [])
    ∧ (∀ w ∈ (mapClick (some u) body lat lng (some s)).writes,
        w.text = jsTrim s ∧ w.text ≠ "")
    ∧ (∀ (sess : Option UserInfo) (pos : Option (Int × Int)) (det b : String),
        ∀ w ∈ handleSubmitAnnotationModal sess pos s det b,
          w.text = jsTrim s ∧ w.text ≠ "")
    ∧ (∀ (sess : Option UserInfo) (pos : Option (Int × Int)) (det b : String),
        s.data.all isJsWhitespace = true →
          handleSubmitAnnotationModal sess pos s det b = []) := by
  refine ⟨?_, ?_, ?_, ?_⟩
  · intro hws
    rw [mapClick_writes_eq, if_pos (by simp [jsTrim_eq_empty_of_all_ws s hws])]
  · intro w hw
    rw [mapClick_writes_eq] at hw
    cases hc : jsTrim s == "" with
    | true => rw [if_pos (by simp [hc])] at hw; cases hw
    | false =>
      rw [if_neg (by simp [hc])] at hw
      have hne : jsTrim s ≠ "" := by simpa using hc
      rcases List.mem_singleton.mp hw with rfl
      exact ⟨rfl, hne⟩
  · intro sess pos det b w hw
    cases pos with
    | none => cases hw
    | some p =>
      rw [handleSubmit_writes_eq] at hw
      cases hc : jsTrim s == "" with
      | true => rw [if_pos (by simp [hc])] at hw; cases hw
      | false =>
        rw [if_neg (by simp [hc])] at hw
        have hne : jsTrim s ≠ "" := by simpa using hc
        rcases List.mem_singleton.mp hw with rfl
        exact ⟨rfl, hne⟩
  · intro sess pos det b hws
    cases pos with
    | none => rfl
    | some p =>
      rw [handleSubmit_writes_eq,
        if_pos (by simp [jsTrim_eq_empty_of_all_ws s hws])]

/-- Claim C9 witness: a description with surrounding whitespace is stored
trimmed by both handlers, and a whitespace-only description aborts. -/
theorem c9_description_trimmed_before_storage_witness :
    ("  hi " : String).data.all isJsWhitespace = false
    ∧ jsTrim "  hi " = "hi"
    ∧ ({ lat := (0 : Int), lng := (0 : Int), text := "hi", details := none,
         author := "A", celestialBody := "Mars",
         userId := some "uA" } : AnnotationWrite).text = jsTrim "  hi "
      ∧ ({ lat := (0 : Int), lng := (0 : Int), text := "hi", details := none,
           author := "A", celestialBody := "Mars",
           userId := some "uA" } : AnnotationWrite).text ≠ ""
    ∧ (mapClick (some userA) "Mars" 0 0 (some " \t ")).writes = [] :=
  ⟨by decide, by decide,
   ((c9_description_trimmed_before_storage userA "Mars" 0 0 "  hi ").2.1
     { lat := 0, lng := 0, text := "hi", details := none, author := "A",
       celestialBody := "Mars", userId := some "uA" } (by decide)).1,
   ((c9_description_trimmed_before_storage userA "Mars" 0 0 "  hi ").2.1
     { lat := 0, lng := 0, text := "hi", details := none, author := "A",
       celestialBody := "Mars", userId := some "uA" } (by decide)).2,
   (c9_description_trimmed_before_storage userA "Mars" 0 0 " \t ").1
     (by decide)⟩

lemma perm_insertDesc (x : LbEntry) :
    ∀ l : List LbEntry, List.Perm (insertDesc x l) (x :: l) := by
  intro l
  induction l with
  | nil => simp [insertDesc]
  | cons y ys ih =>
    unfold insertDesc
    by_cases h : y.count < x.count
    · rw [if_pos h]
    · rw [if_neg h]
      exact (ih.cons y).trans (List.Perm.swap x y ys)

lemma sortByCountDesc_perm_aux :
    ∀ (l acc : List LbEntry),
      List.Perm (l.foldl (fun acc x => insertDesc x acc) acc) (l ++ acc) := by
  intro l
  induction l with
  | nil => intro acc; simp
  | cons x xs ih =>
    intro acc
    rw [List.foldl_cons]
    refine (ih _).trans ?_
    refine (List.Perm.append_left xs (perm_insertDesc x acc)).trans ?_
    exact List.perm_middle

lemma sortByCountDesc_perm (l : List LbEntry) :
    List.Perm (sortByCountDesc l) l := by
  simpa using sortByCountDesc_perm_aux l []

lemma pairwise_insertDesc (x : LbEntry) :
    ∀ l : List LbEntry, l.Pairwise (fun a b => b.count ≤ a.count) →
      (insertDesc x l).Pairwise (fun a b => b.count ≤ a.count) := by
  intro l
  induction l with
  | nil => intro _; simp [insertDesc]
  | cons y ys ih =>
    intro h
    rw [List.pairwise_cons] at h
    obtain ⟨hy, hys⟩ := h
    unfold insertDesc
    by_cases hc : y.count < x.count
    · rw [if_pos hc]
      refine List.Pairwise.cons ?_ (List.Pairwise.cons hy hys)
      intro z hz
      rcases List.mem_cons.mp hz with rfl | hz2
      · exact Nat.le_of_lt hc
      · exact Nat.le_trans (hy z hz2) (Nat.le_of_lt hc)
    · rw [if_neg hc]
      refine List.Pairwise.cons ?_ (ih hys)
      intro z hz
      rcases List.mem_cons.mp ((perm_insertDesc x ys).mem_iff.mp hz) with
        rfl | hz2
      · exact Nat.le_of_not_lt hc
      · exact hy z hz2

lemma pairwise_sortByCountDesc_aux :
    ∀ (l acc : List LbEntry), acc.Pairwise (fun a b => b.count ≤ a.count) →
      (l.foldl (fun acc x => insertDesc x acc) acc).Pairwise
        (fun a b => b.count ≤ a.count) := by
  intro l
  induction l with
  | nil => intro acc h; simpa using h
  | cons x xs ih =>
    intro acc h
    rw [List.foldl_cons]
    exact ih _ (pairwise_insertDesc x acc h)

lemma pairwise_sortByCountDesc (l : List LbEntry) :
    (sortByCountDesc l).Pairwise (fun a b => b.count ≤ a.count) :=
  pairwise_sortByCountDesc_aux l [] (by simp)

/-- Claim C4 counterexample: on the spec's own scenario collection (Mars
documents by "A", "A", "B" and Moon documents by "C", "C") the leaderboard
reports a count of 2 for author "C", not the claimed 1 (which would also
contradict the claimed total of 5). -/
theorem c4_counterexample_scenario_count_of_C :
    ((loadLeaderboard c4docs none).top.find?
        (fun e => e.author == "C")).map (fun e => e.count) = some 2 := by
  decide

/-- Claim C4 (amended): the leaderboard reads the whole collection, groups
and counts by author, sorts descending by count (stably) and keeps the top
10; it reports the document count and the distinct author count.  On the
scenario collection the Mars subscription displays exactly 3 markers and
the Moon subscription exactly 2, and the leaderboard reports A=2, C=2, B=1,
totalDiscoveries=5, totalExplorers=3. -/
theorem c4_amended_leaderboard_and_scenario :
    (onSnapshotReplace "Mars" []
        (annotationsQuery "Mars" false none c4store)).length = 3
    ∧ (onSnapshotReplace "Moon" []
        (annotationsQuery "Moon" false none c4store)).length = 2
    ∧ loadLeaderboard c4docs none
        = { top := [{ author := "A", count := 2 }, { author := "C", count := 2 },
                    { author := "B", count := 1 }],
            totalDiscoveries := 5, totalExplorers := 3, yourRank := 0 }
    ∧ (∀ (docs : List DocData) (u : Option UserInfo),
        (loadLeaderboard docs u).totalDiscoveries = docs.length
        ∧ (loadLeaderboard docs u).totalExplorers = (countsOf docs).length
        ∧ (loadLeaderboard docs u).top
            = (sortByCountDesc (countsOf docs)).take 10
        ∧ (loadLeaderboard docs u).top.Pairwise
            (fun a b => b.count ≤ a.count)) := by
  refine ⟨by decide, by decide, by decide, ?_⟩
  intro docs u
  refine ⟨rfl, rfl, rfl, ?_⟩
  exact List.Pairwise.sublist (List.take_sublist 10 _)
    (pairwise_sortByCountDesc (countsOf docs))

lemma mem_keys_bumpCount (a b : String) :
    ∀ l : List LbEntry,
      (b ∈ (bumpCount l a).map LbEntry.author
        ↔ b ∈ l.map LbEntry.author ∨ b = a) := by
  intro l
  induction l with
  | nil => simp [bumpCount]
  | cons e es ih =>
    cases he : e.author == a with
    | true =>
      have hea : e.author = a := by simpa using he
      have hb : bumpCount (e :: es) a
          = { author := e.author, count := e.count + 1 } :: es := by
        simp [bumpCount, he]
      rw [hb]
      subst hea
      simp
      tauto
    | false =>
      have hb : bumpCount (e :: es) a = e :: bumpCount es a := by
        simp [bumpCount, he]
      rw [hb]
      simp only [List.map_cons, List.mem_cons]
      rw [ih]
      tauto

lemma nodup_keys_bumpCount (a : String) :
    ∀ l : List LbEntry, (l.map LbEntry.author).Nodup →
      ((bumpCount l a).map LbEntry.author).Nodup := by
  intro l
  induction l with
  | nil => intro _; simp [bumpCount]
  | cons e es ih =>
    intro h
    rw [List.map_cons, List.nodup_cons] at h
    obtain ⟨hne, hnd⟩ := h
    cases he : e.author == a with
    | true =>
      have hb : bumpCount (e :: es) a
          = { author := e.author, count := e.count + 1 } :: es := by
        simp [bumpCount, he]
      rw [hb, List.map_cons, List.nodup_cons]
      exact ⟨hne, hnd⟩
    | false =>
      have hb : bumpCount (e :: es) a = e :: bumpCount es a := by
        simp [bumpCount, he]
      rw [hb, List.map_cons, List.nodup_cons]
      refine ⟨?_, ih hnd⟩
      intro hmem
      rcases (mem_keys_bumpCount a e.author es).mp hmem with h1 | h2
      · exact hne h1
      · rw [h2] at he; simp at he

lemma mem_keys_countsOf_aux (b : String) :
    ∀ (docs : List DocData) (acc : List LbEntry),
      (b ∈ ((docs.foldl (fun l d => bumpCount l (effAuthor d)) acc).map
          LbEntry.author)
        ↔ b ∈ acc.map LbEntry.author ∨ ∃ d ∈ docs, b = effAuthor d) := by
  intro docs
  induction docs with
  | nil => intro acc; simp
  | cons d docs ih =>
    intro acc
    rw [List.foldl_cons, ih, mem_keys_bumpCount]
    simp only [List.exists_mem_cons_iff]
    tauto

lemma mem_keys_countsOf (docs : List DocData) (b : String) :
    b ∈ (countsOf docs).map LbEntry.author ↔ ∃ d ∈ docs, b = effAuthor d := by
  simpa [countsOf] using mem_keys_countsOf_aux b docs []

lemma nodup_keys_countsOf_aux :
    ∀ (docs : List DocData) (acc : List LbEntry),
      (acc.map LbEntry.author).Nodup →
      ((docs.foldl (fun l d => bumpCount l (effAuthor d)) acc).map
        LbEntry.author).Nodup := by
  intro docs
  induction docs with
  | nil => intro acc h; simpa using h
  | cons d docs ih =>
    intro acc h
    rw [List.foldl_cons]
    exact ih _ (nodup_keys_bumpCount _ _ h)

lemma nodup_keys_countsOf (docs : List DocData) :
    ((countsOf docs).map LbEntry.author).Nodup :=
  nodup_keys_countsOf_aux docs [] (by simp)

lemma lookupCount_cons (e : LbEntry) (l : List LbEntry) (a : String) :
    lookupCount (e :: l) a
      = if e.author == a then e.count else lookupCount l a := by
  cases h : e.author == a with
  | true => simp [lookupCount, List.find?, h]
  | false => simp [lookupCount, List.find?, h]

lemma lookupCount_bumpCount (a b : String) :
    ∀ l : List LbEntry,
      lookupCount (bumpCount l b) a
        = lookupCount l a + (if a = b then 1 else 0) := by
  intro l
  induction l with
  | nil =>
    by_cases hab : a = b
    · subst hab
      simp [bumpCount, lookupCount_cons, lookupCount]
    · have hba : (b == a) = false := beq_eq_false_iff_ne.mpr (Ne.symm hab)
      simp [bumpCount, lookupCount_cons, lookupCount, hba, hab]
  | cons e es ih =>
    cases heb : e.author == b with
    | true =>
      have heb2 : e.author = b := by simpa using heb
      have hb : bumpCount (e :: es) b
          = { author := e.author, count := e.count + 1 } :: es := by
        simp [bumpCount, heb]
      rw [hb, lookupCount_cons, lookupCount_cons]
      by_cases hab : a = b
      · have hea : (e.author == a) = true := by simp [heb2, hab]
        simp [hea, hab, heb2]
      · have hea : (e.author == a) = false := by
          refine beq_eq_false_iff_ne.mpr ?_
          rw [heb2]
          exact Ne.symm hab
        simp [hea, hab]
    | false =>
      have hb : bumpCount (e :: es) b = e :: bumpCount es b := by
        simp [bumpCount, heb]
      rw [hb, lookupCount_cons, lookupCount_cons]
      cases hea : e.author == a with
      | true =>
        have hea2 : e.author = a := by simpa using hea
        have hab : ¬ a = b := by
          intro h
          rw [h] at hea2
          rw [hea2] at heb
          simp at heb
        simp [hab]
      | false => simp [ih]

lemma lookupCount_countsOf_aux (a : String) :
    ∀ (docs : List DocData) (acc : List LbEntry),
      lookupCount (docs.foldl (fun l d => bumpCount l (effAuthor d)) acc) a
        = lookupCount acc a + docs.countP (fun d => effAuthor d == a) := by
  intro docs
  induction docs with
  | nil => intro acc; simp
  | cons d docs ih =>
    intro acc
    rw [List.foldl_cons, ih, lookupCount_bumpCount, List.countP_cons]
    by_cases h : a = effAuthor d
    · have h2 : (effAuthor d == a) = true := by simp [h]
      rw [if_pos h, h2]
      simp
      omega
    · have h2 : (effAuthor d == a) = false :=
        beq_eq_false_iff_ne.mpr (Ne.symm h)
      rw [if_neg h, h2]
      simp

lemma lookupCount_countsOf (docs : List DocData) (a : String) :
    lookupCount (countsOf docs) a
      = docs.countP (fun d => effAuthor d == a) := by
  simpa [countsOf, lookupCount] using lookupCount_countsOf_aux a docs []

lemma countP_congr_mem {α : Type} {p q : α → Bool} :
    ∀ l : List α, (∀ x ∈ l, p x = q x) → l.countP p = l.countP q := by
  intro l
  induction l with
  | nil => intro _; rfl
  | cons x xs ih =>
    intro h
    rw [List.countP_cons, List.countP_cons, h x (List.mem_cons_self x xs),
      ih (fun y hy => h y (List.mem_cons_of_mem x hy))]

lemma countP_keys_eq_zero (a : String) :
    ∀ l : List String, a ∉ l → l.countP (fun k => k == a) = 0 := by
  intro l
  induction l with
  | nil => intro _; rfl
  | cons x xs ih =>
    intro h
    rw [List.countP_cons]
    have hx : (x == a) = false := by
      refine beq_eq_false_iff_ne.mpr ?_
      intro hxa
      exact h (by simp [hxa])
    rw [hx, ih (fun hm => h (List.mem_cons_of_mem x hm))]
    simp

lemma countP_keys_eq_one (a : String) :
    ∀ l : List String, l.Nodup → a ∈ l → l.countP (fun k => k == a) = 1 := by
  intro l
  induction l with
  | nil => intro _ h; cases h
  | cons x xs ih =>
    intro hnd hmem
    rw [List.nodup_cons] at hnd
    rw [List.countP_cons]
    rcases List.mem_cons.mp hmem with rfl | hm
    · rw [countP_keys_eq_zero a xs hnd.1]
      simp
    · rw [ih hnd.2 hm]
      have hx : (x == a) = false :=
        beq_eq_false_iff_ne.mpr (fun hxa => hnd.1 (hxa ▸ hm))
      rw [hx]
      simp

lemma findIndexPlusOne_eq_zero {α : Type} {p : α → Bool} :
    ∀ l : List α, (∀ x ∈ l, p x = false) → findIndexPlusOne p l = 0 := by
  intro l
  induction l with
  | nil => intro _; rfl
  | cons x xs ih =>
    intro h
    simp [findIndexPlusOne, h x (List.mem_cons_self x xs),
      ih (fun y hy => h y (List.mem_cons_of_mem x hy))]

lemma findIndexPlusOne_pos {α : Type} {p : α → Bool} :
    ∀ l : List α, (∃ x ∈ l, p x = true) → 1 ≤ findIndexPlusOne p l := by
  intro l
  induction l with
  | nil => rintro ⟨x, hx, _⟩; cases hx
  | cons y ys ih =>
    rintro ⟨x, hx, hpx⟩
    unfold findIndexPlusOne
    cases hy : p y with
    | true => simp
    | false =>
      rcases List.mem_cons.mp hx with rfl | hx2
      · rw [hy] at hpx; cases hpx
      · have h1 := ih ⟨x, hx2, hpx⟩
        obtain ⟨n, hr⟩ : ∃ n, findIndexPlusOne p ys = n + 1 := by
          rcases hfound : findIndexPlusOne p ys with _ | n
          · rw [hfound] at h1; omega
          · exact ⟨n, rfl⟩
        simp [hr]

lemma findIndexPlusOne_spec {α : Type} {p : α → Bool} :
    ∀ (l : List α) (n : Nat), findIndexPlusOne p l = n + 1 →
      ∃ x, l[n]? = some x ∧ p x = true := by
  intro l
  induction l with
  | nil => intro n h; cases h
  | cons y ys ih =>
    intro n h
    unfold findIndexPlusOne at h
    cases hy : p y with
    | true =>
      rw [hy, if_pos rfl] at h
      obtain rfl : n = 0 := by omega
      exact ⟨y, by simp, hy⟩
    | false =>
      rw [hy, if_neg (by simp)] at h
      rcases hr : findIndexPlusOne p ys with _ | m
      · rw [hr] at h
        simp at h
      · rw [hr] at h
        have h2 : m + 2 = n + 1 := h
        obtain rfl : n = m + 1 := by omega
        obtain ⟨x, hg, hp⟩ := ih m hr
        exact ⟨x, by simpa using hg, hp⟩

/-- Claim C5 counterexample: `loadLeaderboard` computes the rank without any
signed-in guard, using the session author name, which is the literal string
"Unknown" for a signed-out viewer.  On a collection containing an author
actually named "Unknown", a signed-out viewer's rank is reported as 1 — a
positive integer, not 0.  (`loadStats` does guard with `user ? ... : 0`.) -/
theorem c5_counterexample_signed_out_positive_rank :
    (loadLeaderboard c5docs none).yourRank = 1 := by
  decide

/-- Claim C5 (amended): `loadStats` reports rank 0 for every signed-out
viewer; in both computations a viewer whose session author name authored no
document gets rank 0; for a present author the rank is the 1-based position
of that author in the count-descending order (in particular it is positive
and the entry at that position carries the author's name); when signed in
the two computations agree.  `loadLeaderboard` however computes a signed-out
viewer's rank as the rank of the literal author name "Unknown", which is
positive whenever such an author exists. -/
theorem c5_amended_rank_reporting (store : List DocData)
    (u : Option UserInfo) :
    (loadStats store none).yourRank = 0
    ∧ ((∀ d ∈ store, effAuthor d ≠ currentUserName u) →
        (loadLeaderboard store u).yourRank = 0
        ∧ (loadStats store u).yourRank = 0)
    ∧ ((∃ d ∈ store, effAuthor d = currentUserName u) →
        1 ≤ (loadLeaderboard store u).yourRank
        ∧ ((sortByCountDesc
              (countsOf store))[(loadLeaderboard store u).yourRank - 1]?).map
            LbEntry.author = some (currentUserName u))
    ∧ (u.isSome = true →
        (loadStats store u).yourRank = (loadLeaderboard store u).yourRank) := by
  have habs : (∀ d ∈ store, effAuthor d ≠ currentUserName u) →
      rankOf (countsOf store) (currentUserName u) = 0 := by
    intro h
    apply findIndexPlusOne_eq_zero
    intro e he
    have he2 : e ∈ countsOf store := (sortByCountDesc_perm _).mem_iff.mp he
    have hk : e.author ∈ (countsOf store).map LbEntry.author :=
      List.mem_map_of_mem LbEntry.author he2
    obtain ⟨d, hd, hda⟩ := (mem_keys_countsOf store e.author).mp hk
    refine beq_eq_false_iff_ne.mpr ?_
    intro hea
    refine h d hd ?_
    rw [← hda, hea]
  refine ⟨by simp [loadStats], ?_, ?_, ?_⟩
  · intro h
    have h0 := habs h
    cases u with
    | none => exact ⟨h0, by simp [loadStats]⟩
    | some v => exact ⟨h0, by simpa [loadStats, loadLeaderboard] using h0⟩
  · intro h
    obtain ⟨d, hd, hda⟩ := h
    have hk : currentUserName u ∈ (countsOf store).map LbEntry.author :=
      (mem_keys_countsOf store _).mpr ⟨d, hd, hda.symm⟩
    obtain ⟨e, he, hea⟩ := List.mem_map.mp hk
    have hes : e ∈ sortByCountDesc (countsOf store) :=
      (sortByCountDesc_perm _).mem_iff.mpr he
    have hpos : 1 ≤ rankOf (countsOf store) (currentUserName u) := by
      apply findIndexPlusOne_pos
      exact ⟨e, hes, by simp [hea]⟩
    refine ⟨hpos, ?_⟩
    obtain ⟨m, hm⟩ :
        ∃ m, rankOf (countsOf store) (currentUserName u) = m + 1 := by
      rcases hr : rankOf (countsOf store) (currentUserName u) with _ | m
      · rw [hr] at hpos; omega
      · exact ⟨m, rfl⟩
    have hm2 : findIndexPlusOne (fun e => e.author == currentUserName u)
        (sortByCountDesc (countsOf store)) = m + 1 := hm
    obtain ⟨x, hx, hpx⟩ := findIndexPlusOne_spec _ m hm2
    have hxa : x.author = currentUserName u := by simpa using hpx
    have hyr : (loadLeaderboard store u).yourRank = m + 1 := hm
    rw [hyr]
    simp [hx, hxa]
  · intro hu
    cases u with
    | none => cases hu
    | some v => rfl

/-- Claim C5 amended-theorem witness, applying it at concrete inputs: a
present author ("A" with one document) gets rank 1 with their own entry at
that position; on the empty collection the rank is 0 in both computations;
signed in, the two computations agree. -/
theorem c5_amended_rank_reporting_witness :
    (1 ≤ (loadLeaderboard docsA (some userA)).yourRank
      ∧ ((sortByCountDesc
            (countsOf docsA))[(loadLeaderboard docsA (some userA)).yourRank
              - 1]?).map LbEntry.author
          = some (currentUserName (some userA)))
    ∧ ((loadLeaderboard [] (some userA)).yourRank = 0
      ∧ (loadStats [] (some userA)).yourRank = 0)
    ∧ (loadStats docsA (some userA)).yourRank
        = (loadLeaderboard docsA (some userA)).yourRank :=
  ⟨(c5_amended_rank_reporting docsA (some userA)).2.2.1
     ⟨mkData (some "A") "Mars" none, by decide, by decide⟩,
   (c5_amended_rank_reporting [] (some userA)).2.1 (by simp),
   (c5_amended_rank_reporting docsA (some userA)).2.2.2 rfl⟩

/-- Claim C10: every document whose `author` field is missing is counted
under the single name "Anonymous"; on a collection where no author is
literally named "Anonymous", the "Anonymous" count is exactly the number of
author-less documents, they form exactly one counts entry (also after
sorting), and together they contribute exactly one to the distinct-explorer
count — regardless of how many distinct `userId`s wrote them, which the
aggregation never reads. -/
theorem c10_missing_authors_merged_as_anonymous (store : List DocData)
    (u : Option UserInfo)
    (hmiss : ∃ d ∈ store, d.author = none)
    (hanon : ∀ d ∈ store, d.author ≠ some "Anonymous") :
    (∀ d ∈ store, d.author = none → effAuthor d = "Anonymous")
    ∧ lookupCount (countsOf store) "Anonymous"
        = store.countP (fun d => d.author.isNone)
    ∧ (countsOf store).countP (fun e => e.author == "Anonymous") = 1
    ∧ (sortByCountDesc (countsOf store)).countP
        (fun e => e.author == "Anonymous") = 1
    ∧ (loadLeaderboard store u).totalExplorers
        = (loadLeaderboard (store.filter (fun d => d.author.isSome))
            u).totalExplorers + 1 := by
  have h3 : (countsOf store).countP (fun e => e.author == "Anonymous") = 1 := by
    have hmem : "Anonymous" ∈ (countsOf store).map LbEntry.author := by
      obtain ⟨d, hd, hda⟩ := hmiss
      exact (mem_keys_countsOf store _).mpr ⟨d, hd, by simp [effAuthor, hda]⟩
    have hone := countP_keys_eq_one "Anonymous"
      ((countsOf store).map LbEntry.author) (nodup_keys_countsOf store) hmem
    rw [List.countP_map] at hone
    simpa [Function.comp] using hone
  refine ⟨?_, ?_, h3, ?_, ?_⟩
  · intro d _ h
    simp [effAuthor, h]
  · rw [lookupCount_countsOf]
    apply countP_congr_mem
    intro d hd
    cases hda : d.author with
    | none => simp [effAuthor, hda]
    | some s =>
      have hs : s ≠ "Anonymous" := by
        intro h
        exact hanon d hd (by rw [hda, h])
      simp [effAuthor, hda, hs]
  · rw [List.Perm.countP_eq _ (sortByCountDesc_perm (countsOf store))]
    exact h3
  · have hnodup1 := nodup_keys_countsOf store
    have hnodup2 := nodup_keys_countsOf (store.filter (fun d => d.author.isSome))
    have hnotmem : "Anonymous" ∉
        (countsOf (store.filter (fun d => d.author.isSome))).map
          LbEntry.author := by
      intro hmem2
      obtain ⟨d, hd, hda⟩ := (mem_keys_countsOf _ _).mp hmem2
      obtain ⟨hd2, hsome⟩ := List.mem_filter.mp hd
      cases hdv : d.author with
      | none => rw [hdv] at hsome; cases hsome
      | some s =>
        have hs : s = "Anonymous" := by
          have h5 : "Anonymous" = effAuthor d := hda
          simp only [effAuthor, hdv, Option.getD_some] at h5
          exact h5.symm
        exact hanon d hd2 (by rw [hdv, hs])
    have hiff : ∀ b : String,
        b ∈ (countsOf store).map LbEntry.author
          ↔ b ∈ "Anonymous" ::
              (countsOf (store.filter (fun d => d.author.isSome))).map
                LbEntry.author := by
      intro b
      rw [mem_keys_countsOf, List.mem_cons, mem_keys_countsOf]
      constructor
      · rintro ⟨d, hd, hda⟩
        cases hdv : d.author with
        | none =>
          left
          rw [hda]
          simp [effAuthor, hdv]
        | some s =>
          right
          exact ⟨d, List.mem_filter.mpr ⟨hd, by simp [hdv]⟩, hda⟩
      · rintro (rfl | ⟨d, hd, hda⟩)
        · obtain ⟨d, hd, hdn⟩ := hmiss
          exact ⟨d, hd, by simp [effAuthor, hdn]⟩
        · exact ⟨d, (List.mem_filter.mp hd).1, hda⟩
    have hperm : List.Perm ((countsOf store).map LbEntry.author)
        ("Anonymous" ::
          (countsOf (store.filter (fun d => d.author.isSome))).map
            LbEntry.author) := by
      refine (List.perm_ext_iff_of_nodup hnodup1 ?_).mpr hiff
      rw [List.nodup_cons]
      exact ⟨hnotmem, hnodup2⟩
    have hlen := hperm.length_eq
    simp only [List.length_map, List.length_cons] at hlen
    simpa [loadLeaderboard] using hlen

/-- Claim C10 witness: on a concrete collection holding two author-less
documents written by the distinct users "u1" and "u2" plus one document by
"B", the "Anonymous" count is 2, there is one "Anonymous" entry, and the
distinct-explorer count exceeds that of the author-bearing documents by
exactly one. -/
theorem c10_missing_authors_merged_as_anonymous_witness :
    lookupCount (countsOf c10docs) "Anonymous"
        = c10docs.countP (fun d => d.author.isNone)
    ∧ (countsOf c10docs).countP (fun e => e.author == "Anonymous") = 1
    ∧ (loadLeaderboard c10docs none).totalExplorers
        = (loadLeaderboard (c10docs.filter (fun d => d.author.isSome))
            none).totalExplorers + 1 :=
  ⟨(c10_missing_authors_merged_as_anonymous c10docs none (by decide)
      (by decide)).2.1,
   (c10_missing_authors_merged_as_anonymous c10docs none (by decide)
      (by decide)).2.2.1,
   (c10_missing_authors_merged_as_anonymous c10docs none (by decide)
      (by decide)).2.2.2.2⟩

end UniExplorer
